import Mathlib

/-!
Shallow embedding of `src/main.ts` (class `RedisCache<T>`), a typed,
namespaced, TTL-bound cache façade over a Redis-like key-value store.

Modelling conventions:
* Physical keys, logical ids and prefixes are `List Char` (the character
  sequence of the TypeScript strings), written `Str` below.
* The store (the external Redis collaborator) is a finite association list
  from physical keys to stored payloads.  A payload is either the empty
  transport text `""`, a text that `JSON.parse` rejects, or a text that
  parses to a JSON value `v` (represented by the value itself; the codec
  `JSON.stringify`/`JSON.parse` is modelled as the identity on JSON values,
  which is faithful for every JSON-serializable value).
* JavaScript numbers are modelled as `Int` where only integer values occur;
  the `ttl` option additionally carries the `NaN` case, which the
  constructor tests with `Number.isNaN`.
* The compiled TypeBox `TObject` schema checker is modelled concretely: a
  list of required properties, each with a primitive field type; a value
  passes iff it is a (non-null) JSON object providing each required
  property with the declared type.  Additional properties are allowed, as
  with TypeBox's default `TObject` semantics.
* The glob pattern `this.prefix + "*"` used by `scanIterator` and `keys`
  is modelled as "the prefix is a prefix of the key" (prefixes are assumed
  free of glob metacharacters).
-/

abbrev Str := List Char

/-- JSON values, the decoded form of stored transport text. -/
inductive JsonValue where
  | null
  | bool (b : Bool)
  | num (n : Int)
  | str (s : String)
  | arr (elems : List JsonValue)
  | obj (fields : List (String × JsonValue))

/-- JavaScript truthiness of a JSON value (`!value` in the iterator). -/
def JsonValue.jsTruthy : JsonValue → Bool
  | .null => false
  | .bool b => b
  | .num n => n != 0
  | .str s => s != ""
  | .arr _ => true
  | .obj _ => true

/-- A payload held by the store under some key: the empty transport text,
a text `JSON.parse` rejects, or a text parsing to the given JSON value. -/
inductive StoredData where
  | emptyText
  | malformed
  | value (v : JsonValue)

/-- Primitive property types of the declarative `TObject` schema. -/
inductive FieldType where
  | fstr
  | fint
  | fbool

/-- Field-level schema test: does the JSON value have the declared type? -/
def FieldType.checkVal : FieldType → JsonValue → Bool
  | .fstr, .str _ => true
  | .fint, .num _ => true
  | .fbool, .bool _ => true
  | _, _ => false

/-- First value bound to a property name in a JSON object's field list. -/
def lookupField (name : String) : List (String × JsonValue) → Option JsonValue
  | [] => none
  | (n, v) :: rest => if n = name then some v else lookupField name rest

/-- A declarative `TObject` schema: the required properties and their
types.  Compilation (`TypeCompiler.Compile`) is semantics-preserving, so
the compiled checker is modelled by `TObjectSchema.check` directly. -/
structure TObjectSchema where
  fields : List (String × FieldType)

/-- The compiled checker: a value passes iff it is a JSON object that
provides every required property with the declared type.  In particular
`null`, primitives and arrays never pass. -/
def TObjectSchema.check (s : TObjectSchema) (v : JsonValue) : Bool :=
  match v with
  | .obj fs =>
      s.fields.all fun p =>
        match lookupField p.1 fs with
        | some fv => p.2.checkVal fv
        | none => false
  | _ => false

/-- The external store: physical key to stored payload, as Redis holds it. -/
structure Store where
  entries : List (Str × StoredData)

/-- Point lookup in the store's entry list (Redis `GET`, `EXISTS`). -/
def lookupKey : List (Str × StoredData) → Str → Option StoredData
  | [], _ => none
  | (k, d) :: rest, key => if k = key then some d else lookupKey rest key

/-- Redis `SET key val`: overwrite in place when the key exists, append
a fresh entry otherwise. -/
def Store.setKey (st : Store) (key : Str) (d : StoredData) : Store :=
  if (lookupKey st.entries key).isSome then
    ⟨st.entries.map fun e => if e.1 = key then (key, d) else e⟩
  else
    ⟨st.entries ++ [(key, d)]⟩

/-- Redis `EXISTS key`: 1 when present, 0 when absent. -/
def Store.existsKey (st : Store) (key : Str) : Nat :=
  if (lookupKey st.entries key).isSome then 1 else 0

/-- Redis `DEL keys`: remove every entry whose key is listed. -/
def Store.delKeys (st : Store) (keys : List Str) : Store :=
  ⟨st.entries.filter fun e => decide (e.1 ∉ keys)⟩

/-- The physical keys currently in the store, in entry order. -/
def Store.keyList (st : Store) : List Str :=
  st.entries.map Prod.fst

/-- Redis `KEYS pre*`: every stored key the glob pattern `pre ++ "*"`
matches, i.e. every key starting with `pre`, in one round trip. -/
def Store.keysCmd (st : Store) (pre : Str) : List Str :=
  st.keyList.filter fun k => pre.isPrefixOf k

/-- Redis `SCAN MATCH pre* COUNT n`: cursor enumeration of the keys the
glob pattern matches.  The batch-size hint `count` only affects round-trip
batching, never which keys are produced, so it is carried but unused. -/
def Store.scanMatch (st : Store) (pre : Str) (_count : Nat) : List Str :=
  st.keysCmd pre

/-- The `ttl` constructor option: a JavaScript number, possibly `NaN`. -/
inductive TtlValue where
  | nan
  | num (n : Int)

/-- JavaScript `opts.ttl <= 0` (false on `NaN`: `NaN` compares false). -/
def TtlValue.jsLeZero : TtlValue → Bool
  | .nan => false
  | .num n => decide (n ≤ 0)

/-- JavaScript `Number.isNaN(opts.ttl)`. -/
def TtlValue.jsIsNaN : TtlValue → Bool
  | .nan => true
  | .num _ => false

/-- The `RedisCacheOptions` interface.  `prefix` is called `prefixStr`. -/
structure RedisCacheOptions where
  prefixStr : Str
  scanCount : Nat
  schema : TObjectSchema
  ttl : TtlValue

/-- Errors the façade can throw.  `wrapped` is `new Error(err)` wrapping a
store-communication or `JSON.parse` failure; the others carry the literal
message of the corresponding `throw new Error(...)`. -/
inductive CacheError where
  | wrapped
  | unexpectedTtl
  | schemaCheck
deriving DecidableEq

/-- A constructed cache instance.  Its compiled schema checker is
`opts.schema.check` (compilation is modelled as semantics-preserving). -/
structure RedisCache where
  opts : RedisCacheOptions

/-- Getter `get prefix()`. -/
def RedisCache.prefixStr (c : RedisCache) : Str := c.opts.prefixStr

/-- Getter `get ttl()`. -/
def RedisCache.ttl (c : RedisCache) : TtlValue := c.opts.ttl

/-- Getter `get scanCount()`. -/
def RedisCache.scanCount (c : RedisCache) : Nat := c.opts.scanCount

/-- The private constructor: throw `UNEXPECTED_TTL` when
`opts.ttl <= 0 || Number.isNaN(opts.ttl)`, else compile the schema and
return the instance. -/
def RedisCache.construct (opts : RedisCacheOptions) : Except CacheError RedisCache :=
  if opts.ttl.jsLeZero || opts.ttl.jsIsNaN then .error .unexpectedTtl
  else .ok ⟨opts⟩

/-- Observable outcome of `RedisCache.new`: whether `createClient` ran,
and the constructor's result. -/
structure NewOutcome where
  clientCreated : Bool
  result : Except CacheError RedisCache

/-- `static new`: `createClient({...redisOpts})` is evaluated first,
unconditionally, and only then is the constructor invoked, so the client
handle exists even when construction throws. -/
def RedisCache.newCache (opts : RedisCacheOptions) : NewOutcome :=
  ⟨true, RedisCache.construct opts⟩

/-- `get(id)`: fetch `prefix + id`; return `undefined` when the store
reports `null` or the transport text is falsy (`""`); rethrow a parse
failure wrapped; return `undefined` when the parsed value is `null`;
throw `SCHEMA_CHECK` when the compiled checker rejects; else the value. -/
def RedisCache.get (c : RedisCache) (st : Store) (id : Str) :
    Except CacheError (Option JsonValue) :=
  match lookupKey st.entries (c.prefixStr ++ id) with
  | none => .ok none
  | some .emptyText => .ok none
  | some .malformed => .error .wrapped
  | some (.value v) =>
      match v with
      | .null => .ok none
      | v =>
          if c.opts.schema.check v then .ok (some v)
          else .error .schemaCheck

/-- `set(id, value)`: `JSON.stringify` the value (which succeeds for every
JSON value and yields a non-empty text parsing back to it) and store it
under `prefix + id` with expiry `ttl`. -/
def RedisCache.set (c : RedisCache) (st : Store) (id : Str) (v : JsonValue) : Store :=
  st.setKey (c.prefixStr ++ id) (.value v)

/-- `has(id)`: `(await this.client.exists(key)) === 1`. -/
def RedisCache.has (c : RedisCache) (st : Store) (id : Str) : Bool :=
  st.existsKey (c.prefixStr ++ id) == 1

/-- `delete(id)`: issue `del([key])`, then return `true`. -/
def RedisCache.del (c : RedisCache) (st : Store) (id : Str) : Store × Bool :=
  (st.delKeys [c.prefixStr ++ id], true)

/-- `keys()`: scan `prefix + "*"` and yield `key.substring(len)` for each
scanned physical key, `len` being the prefix length. -/
def RedisCache.keysList (c : RedisCache) (st : Store) : List Str :=
  (st.scanMatch c.prefixStr c.scanCount).map fun k => k.drop c.prefixStr.length

/-- `size()`: `KEYS prefix + "*"` in one round trip, then its length. -/
def RedisCache.size (c : RedisCache) (st : Store) : Nat :=
  (st.keysCmd c.prefixStr).length

/-- A non-fatal `console.warn` notice emitted while iterating. -/
inductive IterNotice where
  | couldNotFind (key : Str)
  | schemaCheckNotice (key : Str)

/-- Outcome of draining `[Symbol.asyncIterator]`: the pairs yielded before
completion or abort, the warnings printed, and the error that aborted the
generator, if any. -/
structure IterResult where
  yielded : List (Str × JsonValue)
  notices : List IterNotice
  err : Option CacheError

/-- One scanned key after another, as the `for await` body does: call
`this.get(key)` — passing the scanned physical key as the id, so the
fetched store key is `prefix + key` — and let any error it throws abort
the generator; skip with `COULD_NOT_FIND` when the result is falsy; skip
with `SCHEMA_CHECK` when the re-check rejects; otherwise yield
`[key.substring(len), value]`. -/
def iterGo (c : RedisCache) (st : Store) : List Str → IterResult
  | [] => ⟨[], [], none⟩
  | key :: rest =>
      match c.get st key with
      | .error e => ⟨[], [], some e⟩
      | .ok data =>
          match data with
          | none =>
              let r := iterGo c st rest
              ⟨r.yielded, .couldNotFind key :: r.notices, r.err⟩
          | some v =>
              if !v.jsTruthy then
                let r := iterGo c st rest
                ⟨r.yielded, .couldNotFind key :: r.notices, r.err⟩
              else if !(c.opts.schema.check v) then
                let r := iterGo c st rest
                ⟨r.yielded, .schemaCheckNotice key :: r.notices, r.err⟩
              else
                let r := iterGo c st rest
                ⟨(key.drop c.prefixStr.length, v) :: r.yielded, r.notices, r.err⟩

/-- `[Symbol.asyncIterator]`: the combined key+value iteration, drained. -/
def RedisCache.asyncIter (c : RedisCache) (st : Store) : IterResult :=
  iterGo c st (st.scanMatch c.prefixStr c.scanCount)

instance : Inhabited JsonValue := ⟨JsonValue.null⟩

instance : Inhabited StoredData := ⟨StoredData.emptyText⟩

/-- The spec's concrete scenario schema, trimmed to one required property:
an object with a string `name`. -/
def sampleSchema : TObjectSchema := ⟨[("name", FieldType.fstr)]⟩

/-- A cache over prefix `"p:"`, scan hint 10, ttl 60. -/
def sampleCache : RedisCache := ⟨⟨"p:".toList, 10, sampleSchema, TtlValue.num 60⟩⟩

/-- A store with no entries. -/
def emptyStore : Store := ⟨[]⟩

/-- A value satisfying `sampleSchema`. -/
def anaVal : JsonValue := .obj [("name", JsonValue.str "Ana")]

/-- Options with ttl = 0, used by the C5 counterexample. -/
def ttlZeroOpts : RedisCacheOptions := ⟨"p:".toList, 10, sampleSchema, TtlValue.num 0⟩

/-- A store holding one schema-valid entry under the physical key
`"p:a"`, i.e. id `"a"` under prefix `"p:"`.  Used by the C1 theorem. -/
def oneEntryStore : Store := ⟨[("p:a".toList, StoredData.value anaVal)]⟩

/-- A store where the double-prefixed key `"p:p:a"` holds a payload that
decodes (to the number 1) but violates the schema.  Used by C2. -/
def schemaAbortStore : Store :=
  ⟨[("p:a".toList, StoredData.value anaVal),
    ("p:p:a".toList, StoredData.value (JsonValue.num 1))]⟩

/-- A sequence of `set` calls performed through one cache instance, in
order: `applySets c st [(id1,v1), ...]` is the store after
`c.set(id1, v1); ...` starting from `st`. -/
def applySets (c : RedisCache) (st : Store) (ops : List (Str × JsonValue)) : Store :=
  ops.foldl (fun s p => c.set s p.1 p.2) st

/-- Two distinct ids with schema-valid values, for the C6 witness. -/
def twoOps : List (Str × JsonValue) :=
  [("a".toList, anaVal), ("b".toList, JsonValue.obj [("name", JsonValue.str "Bo")])]

/-- A cache with prefix `"a"`, the writer in the C4 counterexample. -/
def cacheA : RedisCache := ⟨⟨"a".toList, 10, sampleSchema, TtlValue.num 60⟩⟩

/-- A cache with prefix `"ab"`, the observer in the C4 counterexample. -/
def cacheB : RedisCache := ⟨⟨"ab".toList, 10, sampleSchema, TtlValue.num 60⟩⟩

/-- A cache with prefix `"b:"`, incomparable with `sampleCache`'s
`"p:"`; observer in the C4 witness. -/
def cacheBIso : RedisCache := ⟨⟨"b:".toList, 10, sampleSchema, TtlValue.num 60⟩⟩

/-! ## Lemmas and claim theorems -/

theorem isPrefixOf_eq_true_iff (p k : Str) : p.isPrefixOf k = true ↔ p <+: k := by
  induction p generalizing k with
  | nil => simp [List.isPrefixOf]
  | cons a ptl ih =>
      cases k with
      | nil => simp [List.isPrefixOf]
      | cons b ktl => simp [List.isPrefixOf, List.cons_prefix_cons, ih]

theorem prefixes_of_same_comparable {l1 l2 l3 : Str} (h1 : l1 <+: l3) (h2 : l2 <+: l3) :
    l1 <+: l2 ∨ l2 <+: l1 :=
  (Nat.le_total l1.length l2.length).imp (List.prefix_of_prefix_length_le h1 h2)
    (List.prefix_of_prefix_length_le h2 h1)

theorem lookupKey_append (l1 l2 : List (Str × StoredData)) (k : Str) :
    lookupKey (l1 ++ l2) k =
      match lookupKey l1 k with
      | some d => some d
      | none => lookupKey l2 k := by
  induction l1 with
  | nil => simp [lookupKey]
  | cons e rest ih =>
      by_cases h : e.1 = k
      · simp [lookupKey, h]
      · simp [lookupKey, h, ih]

theorem map_update_cons_eq (k : Str) (d : StoredData) (k1 : Str) (d1 : StoredData)
    (rest : List (Str × StoredData)) (he : k1 = k) :
    ((k1, d1) :: rest).map (fun e => if e.1 = k then (k, d) else e) =
      (k, d) :: rest.map (fun e => if e.1 = k then (k, d) else e) := by
  subst he
  simp

theorem map_update_cons_ne (k : Str) (d : StoredData) (k1 : Str) (d1 : StoredData)
    (rest : List (Str × StoredData)) (he : ¬k1 = k) :
    ((k1, d1) :: rest).map (fun e => if e.1 = k then (k, d) else e) =
      (k1, d1) :: rest.map (fun e => if e.1 = k then (k, d) else e) := by
  simp [he]

theorem lookupKey_update_self (l : List (Str × StoredData)) (k : Str) (d : StoredData)
    (h : (lookupKey l k).isSome = true) :
    lookupKey (l.map fun e => if e.1 = k then (k, d) else e) k = some d := by
  induction l with
  | nil => simp [lookupKey] at h
  | cons e rest ih =>
      obtain ⟨k1, d1⟩ := e
      by_cases he : k1 = k
      · rw [map_update_cons_eq k d k1 d1 rest he]
        simp [lookupKey]
      · rw [map_update_cons_ne k d k1 d1 rest he]
        simp only [lookupKey, he, if_false] at h
        simp [lookupKey, he, ih h]

theorem lookupKey_update_ne (l : List (Str × StoredData)) (k : Str) (d : StoredData)
    (k' : Str) (h : k' ≠ k) :
    lookupKey (l.map fun e => if e.1 = k then (k, d) else e) k' = lookupKey l k' := by
  induction l with
  | nil => simp
  | cons e rest ih =>
      obtain ⟨k1, d1⟩ := e
      by_cases he : k1 = k
      · subst he
        rw [map_update_cons_eq k1 d k1 d1 rest rfl]
        have hne : k1 ≠ k' := fun hk => h hk.symm
        simp [lookupKey, hne, ih]
      · rw [map_update_cons_ne k d k1 d1 rest he]
        simp [lookupKey, ih]

theorem setKey_entries_present (st : Store) (k : Str) (d : StoredData)
    (h : (lookupKey st.entries k).isSome = true) :
    (st.setKey k d).entries = st.entries.map fun e => if e.1 = k then (k, d) else e := by
  unfold Store.setKey
  simp [h]

theorem setKey_entries_absent (st : Store) (k : Str) (d : StoredData)
    (h : lookupKey st.entries k = none) :
    (st.setKey k d).entries = st.entries ++ [(k, d)] := by
  unfold Store.setKey
  simp [h]

theorem lookupKey_setKey_self (st : Store) (k : Str) (d : StoredData) :
    lookupKey (st.setKey k d).entries k = some d := by
  cases hl : lookupKey st.entries k with
  | some d' =>
      have hp : (lookupKey st.entries k).isSome = true := by simp [hl]
      rw [setKey_entries_present st k d hp]
      exact lookupKey_update_self st.entries k d hp
  | none =>
      rw [setKey_entries_absent st k d hl, lookupKey_append, hl]
      simp [lookupKey]

theorem lookupKey_setKey_ne (st : Store) (k : Str) (d : StoredData) (k' : Str)
    (h : k' ≠ k) :
    lookupKey (st.setKey k d).entries k' = lookupKey st.entries k' := by
  cases hl : lookupKey st.entries k with
  | some d' =>
      have hp : (lookupKey st.entries k).isSome = true := by simp [hl]
      rw [setKey_entries_present st k d hp]
      exact lookupKey_update_ne st.entries k d k' h
  | none =>
      rw [setKey_entries_absent st k d hl, lookupKey_append]
      have hne : k ≠ k' := fun hk => h hk.symm
      cases hl' : lookupKey st.entries k' with
      | some d2 => rfl
      | none => simp [lookupKey, hne]

theorem map_fst_update (l : List (Str × StoredData)) (k : Str) (d : StoredData) :
    (l.map fun e => if e.1 = k then (k, d) else e).map Prod.fst = l.map Prod.fst := by
  induction l with
  | nil => rfl
  | cons e rest ih =>
      obtain ⟨k1, d1⟩ := e
      by_cases he : k1 = k
      · subst he
        rw [map_update_cons_eq k1 d k1 d1 rest rfl]
        simp [ih]
      · rw [map_update_cons_ne k d k1 d1 rest he]
        simp [ih]

theorem keyList_setKey_present (st : Store) (k : Str) (d : StoredData)
    (h : (lookupKey st.entries k).isSome = true) :
    (st.setKey k d).keyList = st.keyList := by
  unfold Store.keyList
  rw [setKey_entries_present st k d h, map_fst_update]

theorem keyList_setKey_absent (st : Store) (k : Str) (d : StoredData)
    (h : lookupKey st.entries k = none) :
    (st.setKey k d).keyList = st.keyList ++ [k] := by
  unfold Store.keyList
  rw [setKey_entries_absent st k d h, List.map_append]
  rfl

theorem lookupKey_isSome_iff_mem (l : List (Str × StoredData)) (k : Str) :
    (lookupKey l k).isSome = true ↔ k ∈ l.map Prod.fst := by
  induction l with
  | nil => simp [lookupKey]
  | cons e rest ih =>
      obtain ⟨k1, d1⟩ := e
      by_cases he : k1 = k
      · subst he
        simp [lookupKey]
      · have hne : k ≠ k1 := fun hk => he hk.symm
        simp [lookupKey, he, ih, hne]

theorem lookupKey_filter_none (l : List (Str × StoredData)) (p : Str × StoredData → Bool)
    (k : Str) (hp : ∀ d, p (k, d) = false) :
    lookupKey (l.filter p) k = none := by
  induction l with
  | nil => simp [lookupKey]
  | cons e rest ih =>
      obtain ⟨k1, d1⟩ := e
      cases hpe : p (k1, d1) with
      | false => simp [List.filter_cons, hpe, ih]
      | true =>
          have hne : k1 ≠ k := by
            intro hk
            subst hk
            rw [hp d1] at hpe
            exact Bool.false_ne_true hpe
          simp [List.filter_cons, hpe, lookupKey, hne, ih]

theorem lookupKey_delKeys_mem (st : Store) (ks : List Str) (k : Str) (h : k ∈ ks) :
    lookupKey (st.delKeys ks).entries k = none := by
  unfold Store.delKeys
  exact lookupKey_filter_none st.entries _ k fun d => by simp [h]

/-- C3: for every id and every JSON-serializable value that satisfies the
declared schema, `set(id, value)` followed immediately by `get(id)` (no
expiry, no other mutation) returns a value equal to `value`. -/
theorem set_get_roundTrip (c : RedisCache) (st : Store) (id : Str) (v : JsonValue)
    (hv : c.opts.schema.check v = true) :
    c.get (c.set st id v) id = .ok (some v) := by
  unfold RedisCache.get RedisCache.set
  rw [lookupKey_setKey_self]
  cases v with
  | null => simp [TObjectSchema.check] at hv
  | bool b => simp [TObjectSchema.check] at hv
  | num n => simp [TObjectSchema.check] at hv
  | str s => simp [TObjectSchema.check] at hv
  | arr xs => simp [TObjectSchema.check] at hv
  | obj fs => simp [hv]

/-- Witness for C3 at the spec's concrete scenario: `set("42", {name:"Ana"})`
then `get("42")` returns `{name:"Ana"}`. -/
theorem set_get_roundTrip_witness :
    sampleCache.opts.schema.check anaVal = true ∧
    sampleCache.get (sampleCache.set emptyStore "42".toList anaVal) "42".toList =
      .ok (some anaVal) :=
  ⟨rfl, set_get_roundTrip sampleCache emptyStore "42".toList anaVal rfl⟩

/-- C7: `get` on an id whose physical key the store reports absent returns
the absent value (`undefined`), and in particular never any error kind. -/
theorem get_absent_id (c : RedisCache) (st : Store) (id : Str)
    (h : lookupKey st.entries (c.prefixStr ++ id) = none) :
    c.get st id = .ok none ∧ ∀ e : CacheError, c.get st id ≠ .error e := by
  have h1 : c.get st id = .ok none := by
    unfold RedisCache.get
    rw [h]
  refine ⟨h1, fun e hcontra => ?_⟩
  rw [h1] at hcontra
  exact Except.noConfusion hcontra

/-- Witness for C7: the empty store reports every key absent and `get`
returns the absent value. -/
theorem get_absent_id_witness :
    lookupKey emptyStore.entries (sampleCache.prefixStr ++ "x".toList) = none ∧
    sampleCache.get emptyStore "x".toList = .ok none :=
  ⟨rfl, (get_absent_id sampleCache emptyStore "x".toList rfl).1⟩

theorem existsKey_congr (st st' : Store) (k : Str) (hkeys : st.keyList = st'.keyList) :
    st.existsKey k = st'.existsKey k := by
  have hiff : (lookupKey st.entries k).isSome = true ↔
      (lookupKey st'.entries k).isSome = true := by
    rw [lookupKey_isSome_iff_mem, lookupKey_isSome_iff_mem]
    show k ∈ st.keyList ↔ k ∈ st'.keyList
    rw [hkeys]
  unfold Store.existsKey
  by_cases hm : (lookupKey st.entries k).isSome = true
  · rw [if_pos hm, if_pos (hiff.mp hm)]
  · rw [if_neg hm, if_neg fun h => hm (hiff.mpr h)]

/-- C8: `has(id)` is true iff the store's existence probe for the computed
physical key reports exactly 1; and `has` never decodes or validates a
stored value — its answer only depends on which keys the store holds, not
on the payloads stored under them. -/
theorem has_iff_exists_probe (c : RedisCache) (st st' : Store) (id : Str)
    (hkeys : st.keyList = st'.keyList) :
    (c.has st id = true ↔ st.existsKey (c.prefixStr ++ id) = 1) ∧
    c.has st id = c.has st' id := by
  constructor
  · unfold RedisCache.has
    simp
  · unfold RedisCache.has
    rw [existsKey_congr st st' (c.prefixStr ++ id) hkeys]

/-- Witness for C8: two stores with the same key under different payloads
(one valid value, one malformed text) agree on `has`, which is true and
matches the probe. -/
theorem has_iff_exists_probe_witness :
    (Store.keyList ⟨[("p:a".toList, StoredData.value anaVal)]⟩ =
      Store.keyList ⟨[("p:a".toList, StoredData.malformed)]⟩) ∧
    (sampleCache.has ⟨[("p:a".toList, StoredData.value anaVal)]⟩ "a".toList = true ↔
      Store.existsKey ⟨[("p:a".toList, StoredData.value anaVal)]⟩
        (sampleCache.prefixStr ++ "a".toList) = 1) ∧
    sampleCache.has ⟨[("p:a".toList, StoredData.value anaVal)]⟩ "a".toList =
      sampleCache.has ⟨[("p:a".toList, StoredData.malformed)]⟩ "a".toList := by
  have h := has_iff_exists_probe sampleCache
    ⟨[("p:a".toList, StoredData.value anaVal)]⟩
    ⟨[("p:a".toList, StoredData.malformed)]⟩ "a".toList rfl
  exact ⟨rfl, h.1, h.2⟩

/-- C9: `delete(id)` reports success whenever the deletion request
completes, whether or not the entry existed: two successive deletes both
return true, and `has(id)` is false after the first (the modelled store
has no communication failures, so every deletion request completes). -/
theorem delete_idempotent (c : RedisCache) (st : Store) (id : Str) :
    (c.del st id).2 = true ∧
    (c.del (c.del st id).1 id).2 = true ∧
    c.has (c.del st id).1 id = false := by
  refine ⟨rfl, rfl, ?_⟩
  unfold RedisCache.has RedisCache.del Store.existsKey
  rw [lookupKey_delKeys_mem st [c.prefixStr ++ id] (c.prefixStr ++ id) (by simp)]
  rfl

/-- C10: a payload whose transport text is the empty string, or whose JSON
decoding is `null`, makes `get` return the absent value — with no error
and without consulting the schema (any schema gives the same result). -/
theorem get_falsy_payload_absent (c : RedisCache) (st : Store) (id : Str)
    (h : lookupKey st.entries (c.prefixStr ++ id) = some StoredData.emptyText ∨
         lookupKey st.entries (c.prefixStr ++ id) = some (StoredData.value JsonValue.null)) :
    c.get st id = .ok none ∧
    ∀ s' : TObjectSchema,
      RedisCache.get ⟨⟨c.opts.prefixStr, c.opts.scanCount, s', c.opts.ttl⟩⟩ st id =
        .ok none := by
  have hpre : RedisCache.prefixStr ⟨⟨c.opts.prefixStr, c.opts.scanCount, c.opts.schema,
      c.opts.ttl⟩⟩ = c.prefixStr := rfl
  cases h with
  | inl h =>
      refine ⟨?_, fun s' => ?_⟩
      · unfold RedisCache.get
        rw [h]
      · unfold RedisCache.get
        rw [show RedisCache.prefixStr ⟨⟨c.opts.prefixStr, c.opts.scanCount, s',
              c.opts.ttl⟩⟩ = c.prefixStr from rfl, h]
  | inr h =>
      refine ⟨?_, fun s' => ?_⟩
      · unfold RedisCache.get
        rw [h]
      · unfold RedisCache.get
        rw [show RedisCache.prefixStr ⟨⟨c.opts.prefixStr, c.opts.scanCount, s',
              c.opts.ttl⟩⟩ = c.prefixStr from rfl, h]

/-- Witness for C10: a stored empty transport text under the computed key
is reported absent. -/
theorem get_falsy_payload_absent_witness :
    lookupKey (Store.entries ⟨[("p:a".toList, StoredData.emptyText)]⟩)
      (sampleCache.prefixStr ++ "a".toList) = some StoredData.emptyText ∧
    sampleCache.get ⟨[("p:a".toList, StoredData.emptyText)]⟩ "a".toList = .ok none :=
  ⟨rfl, (get_falsy_payload_absent sampleCache ⟨[("p:a".toList, StoredData.emptyText)]⟩
    "a".toList (Or.inl rfl)).1⟩

/-- C5 counterexample: with ttl = 0, construction does fail with
`UNEXPECTED_TTL`, but a store client handle IS created — `createClient`
runs inside `new` before the constructor's ttl check — so the claim's
"no store client handle is created" part is false. -/
theorem newCache_ttl_zero_still_creates_client :
    (RedisCache.newCache ttlZeroOpts).result = .error .unexpectedTtl ∧
    (RedisCache.newCache ttlZeroOpts).clientCreated = true :=
  ⟨rfl, rfl⟩

/-- C5 amended: constructing with ttl = 0, ttl = -5 or ttl = NaN fails
with the `UNEXPECTED_TTL` construction error; the store client handle,
however, has already been created when the failure is raised, because
`createClient` is evaluated before the constructor validates the ttl. -/
theorem newCache_rejects_invalid_ttl (opts : RedisCacheOptions)
    (h : opts.ttl = TtlValue.num 0 ∨ opts.ttl = TtlValue.num (-5) ∨
         opts.ttl = TtlValue.nan) :
    (RedisCache.newCache opts).result = .error .unexpectedTtl ∧
    (RedisCache.newCache opts).clientCreated = true := by
  refine ⟨?_, rfl⟩
  unfold RedisCache.newCache RedisCache.construct
  rcases h with h | h | h <;>
    simp [h, TtlValue.jsLeZero, TtlValue.jsIsNaN]

/-- Witness for C5 (amended) at ttl = -5. -/
theorem newCache_rejects_invalid_ttl_witness :
    ((⟨"p:".toList, 10, sampleSchema, TtlValue.num (-5)⟩ : RedisCacheOptions).ttl =
        TtlValue.num 0 ∨
      (⟨"p:".toList, 10, sampleSchema, TtlValue.num (-5)⟩ : RedisCacheOptions).ttl =
        TtlValue.num (-5) ∨
      (⟨"p:".toList, 10, sampleSchema, TtlValue.num (-5)⟩ : RedisCacheOptions).ttl =
        TtlValue.nan) ∧
    (RedisCache.newCache ⟨"p:".toList, 10, sampleSchema, TtlValue.num (-5)⟩).result =
      .error .unexpectedTtl :=
  ⟨Or.inr (Or.inl rfl),
    (newCache_rejects_invalid_ttl ⟨"p:".toList, 10, sampleSchema, TtlValue.num (-5)⟩
      (Or.inr (Or.inl rfl))).1⟩

/-- C1 does not hold of the code: inside the combined iteration the call
is `this.get(key)` with the scanned physical key as the argument, and
`get` prepends the prefix again, so the store fetch is for
`prefix + key`, a re-prefixed key, not the scanned key itself.  On a
store holding a single valid entry at `"p:a"` the fetch targets
`"p:p:a"`, which is absent, so the entry is skipped with a
`COULD_NOT_FIND` notice and nothing is ever yielded — although the claim
requires the pair `("a", value)` to be yielded. -/
theorem asyncIter_refetches_with_extra_prefix :
    sampleCache.opts.schema.check anaVal = true ∧
    sampleCache.asyncIter oneEntryStore =
      ⟨[], [IterNotice.couldNotFind "p:a".toList], none⟩ ∧
    lookupKey oneEntryStore.entries (sampleCache.prefixStr ++ "p:a".toList) = none :=
  ⟨rfl, rfl, rfl⟩

/-- C2 does not hold of the code: the iterator calls `this.get`, which
throws `SCHEMA_CHECK` itself when the fetched payload decodes but fails
validation, and the loop body does not catch it — the in-loop skip branch
for schema failures is unreachable, because any value `get` returns has
already passed the same compiled checker.  On a store whose scanned key
`"p:a"` leads `get` to fetch `"p:p:a"`, which holds the schema-violating
payload `1`, the whole iteration aborts with the schema-validation error
and yields nothing. -/
theorem asyncIter_aborts_on_schema_violation :
    sampleCache.asyncIter schemaAbortStore =
      ⟨[], [], some CacheError.schemaCheck⟩ :=
  rfl

theorem applySets_entries (c : RedisCache) (st : Store) (ops : List (Str × JsonValue))
    (hfresh : ∀ p ∈ ops, lookupKey st.entries (c.prefixStr ++ p.1) = none)
    (hnodup : (ops.map Prod.fst).Nodup) :
    (applySets c st ops).entries =
      st.entries ++ ops.map fun p => (c.prefixStr ++ p.1, StoredData.value p.2) := by
  induction ops generalizing st with
  | nil => simp [applySets]
  | cons p rest ih =>
      obtain ⟨id, v⟩ := p
      have hstep : applySets c st ((id, v) :: rest) = applySets c (c.set st id v) rest := rfl
      have hnever : id ∉ rest.map Prod.fst := (List.nodup_cons.mp hnodup).1
      have hset : (c.set st id v).entries =
          st.entries ++ [(c.prefixStr ++ id, StoredData.value v)] :=
        setKey_entries_absent st _ _ (hfresh (id, v) (by simp))
      have hfresh' : ∀ q ∈ rest,
          lookupKey (c.set st id v).entries (c.prefixStr ++ q.1) = none := by
        intro q hq
        have h1 : c.prefixStr ++ q.1 ≠ c.prefixStr ++ id := by
          intro hk
          have hqid : q.1 = id := List.append_cancel_left hk
          exact hnever (List.mem_map.mpr ⟨q, hq, hqid⟩)
        have h2 : lookupKey (c.set st id v).entries (c.prefixStr ++ q.1) =
            lookupKey st.entries (c.prefixStr ++ q.1) :=
          lookupKey_setKey_ne st _ _ _ h1
        rw [h2]
        exact hfresh q (List.mem_cons_of_mem _ hq)
      have hnodup' : (rest.map Prod.fst).Nodup := (List.nodup_cons.mp hnodup).2
      rw [hstep, ih (c.set st id v) hfresh' hnodup', hset]
      simp

/-- C6: starting from a store holding no key of the cache's namespace,
after `set`-ing N distinct ids through one cache instance, `size()`
reports exactly N and `keys()` yields exactly those N ids in set order,
each obtained by stripping the prefix from the physical key. -/
theorem size_keys_after_sets (c : RedisCache) (st : Store)
    (ops : List (Str × JsonValue))
    (hclean : ∀ k ∈ st.keyList, ¬ c.prefixStr <+: k)
    (hnodup : (ops.map Prod.fst).Nodup) :
    c.size (applySets c st ops) = ops.length ∧
    c.keysList (applySets c st ops) = ops.map Prod.fst := by
  have hfresh : ∀ p ∈ ops, lookupKey st.entries (c.prefixStr ++ p.1) = none := by
    intro p hp
    cases hl : lookupKey st.entries (c.prefixStr ++ p.1) with
    | none => rfl
    | some d =>
        have hmem : (c.prefixStr ++ p.1) ∈ st.keyList :=
          (lookupKey_isSome_iff_mem st.entries _).mp (by simp [hl])
        exact absurd (List.prefix_append c.prefixStr p.1) (hclean _ hmem)
  have hentries := applySets_entries c st ops hfresh hnodup
  have hkeys : (applySets c st ops).keyList =
      st.keyList ++ ops.map fun p => c.prefixStr ++ p.1 := by
    show (applySets c st ops).entries.map Prod.fst = _
    rw [hentries, List.map_append, List.map_map]
    rfl
  have hcmd : (applySets c st ops).keysCmd c.prefixStr =
      ops.map fun p => c.prefixStr ++ p.1 := by
    unfold Store.keysCmd
    rw [hkeys, List.filter_append]
    have h1 : st.keyList.filter (fun k => c.prefixStr.isPrefixOf k) = [] := by
      rw [List.filter_eq_nil_iff]
      intro k hk
      simp only [isPrefixOf_eq_true_iff]
      exact fun hpre => hclean k hk hpre
    have h2 : (ops.map fun p => c.prefixStr ++ p.1).filter
        (fun k => c.prefixStr.isPrefixOf k) = ops.map fun p => c.prefixStr ++ p.1 := by
      rw [List.filter_eq_self]
      intro k hk
      obtain ⟨p, hp, hpk⟩ := List.mem_map.mp hk
      subst hpk
      simp only [isPrefixOf_eq_true_iff]
      exact List.prefix_append c.prefixStr p.1
    rw [h1, h2, List.nil_append]
  refine ⟨?_, ?_⟩
  · unfold RedisCache.size
    rw [hcmd, List.length_map]
  · unfold RedisCache.keysList Store.scanMatch
    rw [hcmd, List.map_map]
    refine List.map_congr_left fun p hp => ?_
    show (c.prefixStr ++ p.1).drop c.prefixStr.length = p.1
    exact List.drop_left c.prefixStr p.1

/-- Witness for C6: from the empty store, setting ids "a" and "b" under
prefix "p:" gives size 2 and keys ["a", "b"]. -/
theorem size_keys_after_sets_witness :
    (∀ k ∈ emptyStore.keyList, ¬ sampleCache.prefixStr <+: k) ∧
    (twoOps.map Prod.fst).Nodup ∧
    sampleCache.size (applySets sampleCache emptyStore twoOps) = 2 ∧
    sampleCache.keysList (applySets sampleCache emptyStore twoOps) =
      ["a".toList, "b".toList] := by
  have h1 : ∀ k ∈ emptyStore.keyList, ¬ sampleCache.prefixStr <+: k := by
    intro k hk
    simp [emptyStore, Store.keyList] at hk
  have h2 : (twoOps.map Prod.fst).Nodup := by decide
  have hmain := size_keys_after_sets sampleCache emptyStore twoOps h1 h2
  refine ⟨h1, h2, hmain.1, ?_⟩
  rw [hmain.2]
  rfl

/-- C4 does not hold as stated: the prefixes `"a"` and `"ab"` are
different, yet after the `"a"`-cache sets id `"bx"` — physical key
`"abx"` — the `"ab"`-cache observes that entry as id `"x"` via `get` and
`has`, and enumerates it via `keys()`, where on the original empty store
it observed nothing.  Different prefixes alone do not isolate namespaces
when one prefix is a prefix of the other. -/
theorem namespace_isolation_fails_nested :
    cacheA.prefixStr ≠ cacheB.prefixStr ∧
    cacheB.get emptyStore "x".toList = .ok none ∧
    cacheB.get (cacheA.set emptyStore "bx".toList anaVal) "x".toList =
      .ok (some anaVal) ∧
    cacheB.has (cacheA.set emptyStore "bx".toList anaVal) "x".toList = true ∧
    cacheB.keysList emptyStore = [] ∧
    cacheB.keysList (cacheA.set emptyStore "bx".toList anaVal) = ["x".toList] :=
  ⟨by decide, rfl, rfl, rfl, rfl, rfl⟩

theorem keysCmd_setKey_not_matching (st : Store) (ka : Str) (d : StoredData)
    (pB : Str) (h : ¬ pB <+: ka) :
    (st.setKey ka d).keysCmd pB = st.keysCmd pB := by
  unfold Store.keysCmd
  cases hl : lookupKey st.entries ka with
  | some d' => rw [keyList_setKey_present st ka d (by simp [hl])]
  | none =>
      rw [keyList_setKey_absent st ka d hl, List.filter_append]
      have hf : (pB.isPrefixOf ka) = false := by
        simp only [← Bool.not_eq_true, isPrefixOf_eq_true_iff]
        exact h
      simp [List.filter_cons, hf]

theorem applySets_lookup_preserved (cA : RedisCache) (st : Store)
    (ops : List (Str × JsonValue)) (k : Str) (hk : ¬ cA.prefixStr <+: k) :
    lookupKey (applySets cA st ops).entries k = lookupKey st.entries k := by
  induction ops generalizing st with
  | nil => rfl
  | cons p rest ih =>
      obtain ⟨id, v⟩ := p
      have hstep : applySets cA st ((id, v) :: rest) =
          applySets cA (cA.set st id v) rest := rfl
      rw [hstep, ih (cA.set st id v)]
      have hne : k ≠ cA.prefixStr ++ id :=
        fun hkk => hk (hkk ▸ List.prefix_append cA.prefixStr id)
      exact lookupKey_setKey_ne st _ _ k hne

theorem applySets_keysCmd_preserved (cA : RedisCache) (st : Store)
    (ops : List (Str × JsonValue)) (pB : Str)
    (hB : ∀ id : Str, ¬ pB <+: (cA.prefixStr ++ id)) :
    (applySets cA st ops).keysCmd pB = st.keysCmd pB := by
  induction ops generalizing st with
  | nil => rfl
  | cons p rest ih =>
      obtain ⟨id, v⟩ := p
      have hstep : applySets cA st ((id, v) :: rest) =
          applySets cA (cA.set st id v) rest := rfl
      rw [hstep, ih (cA.set st id v)]
      exact keysCmd_setKey_not_matching st (cA.prefixStr ++ id) (StoredData.value v) pB (hB id)

theorem iterGo_congr (c : RedisCache) (st st' : Store)
    (hget : ∀ id : Str, c.get st id = c.get st' id) (keys : List Str) :
    iterGo c st keys = iterGo c st' keys := by
  induction keys with
  | nil => rfl
  | cons key rest ih =>
      unfold iterGo
      rw [hget key, ih]

/-- C4 amended: two cache instances over the same store whose prefixes
are incomparable (neither is a string prefix of the other — in particular
they are different) never observe each other: after any sequence of `set`
calls through the first instance, the second instance's `get` and `has`
on every id, its `keys()` enumeration, and its combined key+value
iteration are unchanged.  (The original claim, for arbitrary distinct
prefixes, is refuted by the nested-prefix counterexample.) -/
theorem namespace_isolation_incomparable (cA cB : RedisCache) (st : Store)
    (ops : List (Str × JsonValue))
    (hAB : ¬ cA.prefixStr <+: cB.prefixStr) (hBA : ¬ cB.prefixStr <+: cA.prefixStr) :
    (∀ id : Str, cB.get (applySets cA st ops) id = cB.get st id) ∧
    (∀ id : Str, cB.has (applySets cA st ops) id = cB.has st id) ∧
    cB.keysList (applySets cA st ops) = cB.keysList st ∧
    cB.asyncIter (applySets cA st ops) = cB.asyncIter st := by
  have hnotA : ∀ id : Str, ¬ cA.prefixStr <+: (cB.prefixStr ++ id) := fun id hp =>
    (prefixes_of_same_comparable hp (List.prefix_append cB.prefixStr id)).elim hAB hBA
  have hnotB : ∀ id : Str, ¬ cB.prefixStr <+: (cA.prefixStr ++ id) := fun id hp =>
    (prefixes_of_same_comparable hp (List.prefix_append cA.prefixStr id)).elim hBA hAB
  have hget : ∀ id : Str, cB.get (applySets cA st ops) id = cB.get st id := by
    intro id
    unfold RedisCache.get
    rw [applySets_lookup_preserved cA st ops (cB.prefixStr ++ id) (hnotA id)]
  have hcmd : (applySets cA st ops).keysCmd cB.prefixStr = st.keysCmd cB.prefixStr :=
    applySets_keysCmd_preserved cA st ops cB.prefixStr hnotB
  refine ⟨hget, ?_, ?_, ?_⟩
  · intro id
    unfold RedisCache.has Store.existsKey
    rw [applySets_lookup_preserved cA st ops (cB.prefixStr ++ id) (hnotA id)]
  · unfold RedisCache.keysList Store.scanMatch
    rw [hcmd]
  · unfold RedisCache.asyncIter Store.scanMatch
    rw [hcmd, iterGo_congr cB (applySets cA st ops) st hget]

/-- Witness for C4 (amended): with incomparable prefixes `"p:"` and
`"b:"`, a set through the first cache is invisible to the second's get,
has, keys and iteration. -/
theorem namespace_isolation_incomparable_witness :
    (¬ sampleCache.prefixStr <+: cacheBIso.prefixStr) ∧
    (¬ cacheBIso.prefixStr <+: sampleCache.prefixStr) ∧
    cacheBIso.get (applySets sampleCache emptyStore [("x".toList, anaVal)]) "x".toList =
      cacheBIso.get emptyStore "x".toList ∧
    cacheBIso.has (applySets sampleCache emptyStore [("x".toList, anaVal)]) "x".toList =
      cacheBIso.has emptyStore "x".toList ∧
    cacheBIso.keysList (applySets sampleCache emptyStore [("x".toList, anaVal)]) =
      cacheBIso.keysList emptyStore ∧
    cacheBIso.asyncIter (applySets sampleCache emptyStore [("x".toList, anaVal)]) =
      cacheBIso.asyncIter emptyStore := by
  have h1 : ¬ sampleCache.prefixStr <+: cacheBIso.prefixStr := by decide
  have h2 : ¬ cacheBIso.prefixStr <+: sampleCache.prefixStr := by decide
  have hmain := namespace_isolation_incomparable sampleCache cacheBIso emptyStore
    [("x".toList, anaVal)] h1 h2
  exact ⟨h1, h2, hmain.1 "x".toList, hmain.2.1 "x".toList, hmain.2.2.1, hmain.2.2.2⟩
